import Mathlib

/-!
Verification of `SapConstraintBundle` (drake/multibody/contact_solvers/sap/
sap_constraint_bundle.h), shallowly embedded over exact rationals.

The repository provides the class declaration together with its documented
contracts; the method bodies are not part of the provided sources, so the
operational definitions below are modelled from the specification text and
the header's documentation comments.
-/

namespace SapBundle

/-- Modelled from the spec: a SAP constraint (`SapConstraint<T>`, whose
implementation is not among the provided sources).  It references one or two
cliques, has an equation count, one Jacobian sub-block per referenced clique,
a regularization routine producing `(Rᵢ, v̂ᵢ)` from the Delassus scaling
entry, and a convex-set projection routine with its local gradient. -/
structure SapConstraint where
  num_equations : Nat
  first_clique : Nat
  second_clique : Option Nat
  J_first : List (List ℚ)
  J_second : List (List ℚ)
  calcReg : ℚ → List ℚ × List ℚ
  project : List ℚ → List ℚ
  projectGrad : List ℚ → List (List ℚ)

instance : Inhabited SapConstraint :=
  ⟨⟨0, 0, none, [], [], fun _ => ([], []), fun _ => [], fun _ => []⟩⟩

/-- Modelled from the spec: the contact problem (`SapContactProblem<T>`,
whose implementation is not among the provided sources): an ordered set of
cliques, each an independent block of generalized velocities with a DOF
count, plus an ordered sequence of constraints. -/
structure SapContactProblem where
  clique_sizes : List Nat
  constraints : List SapConstraint

def SapContactProblem.num_constraints (p : SapContactProblem) : Nat :=
  p.constraints.length

def SapContactProblem.num_cliques (p : SapContactProblem) : Nat :=
  p.clique_sizes.length

/-- Total DOF of the problem: the sum of the clique DOF counts. -/
def SapContactProblem.num_velocities (p : SapContactProblem) : Nat :=
  p.clique_sizes.sum

/-- The (unordered, encoded as sorted) clique pair keying the cluster a
constraint belongs to; a unary constraint yields a self-pair. -/
def constraintKey (c : SapConstraint) : Nat × Nat :=
  match c.second_clique with
  | none => (c.first_clique, c.first_clique)
  | some s => (min c.first_clique s, max c.first_clique s)

/-- First-appearance deduplication, used for the deterministic cluster order
and the participating-clique order of the contact problem graph. -/
def dedupFirst {α : Type} [DecidableEq α] : List α → List α
  | [] => []
  | a :: l => a :: (dedupFirst l).filter (fun x => x ≠ a)

/-- Cluster keys of the graph, in deterministic first-appearance order while
scanning the problem's constraints. -/
def clusterKeys (p : SapContactProblem) : List (Nat × Nat) :=
  dedupFirst (p.constraints.map constraintKey)

/-- The problem's constraints zipped with their Delassus-diagonal entries,
re-arranged into graph order: clusters in their creation (first-appearance)
order, and within each cluster the constraints in problem order. -/
def orderedPairs (p : SapContactProblem) (delassus : List ℚ) :
    List (SapConstraint × ℚ) :=
  (dedupFirst ((p.constraints.zip delassus).map fun cd => constraintKey cd.1)).flatMap
    fun k => (p.constraints.zip delassus).filter fun cd => constraintKey cd.1 = k

/-- The cliques of a cluster key, one for a self-cluster, two otherwise. -/
def keyCliques (k : Nat × Nat) : List Nat :=
  if k.1 = k.2 then [k.1] else [k.1, k.2]

/-- Participating cliques: distinct cliques referenced by any cluster, in
first-appearance order while iterating clusters in creation order. -/
def participatingCliques (p : SapContactProblem) : List Nat :=
  dedupFirst ((clusterKeys p).flatMap keyCliques)

/-- Block-sparse matrix: per-block-row and per-block-column sizes plus a
list of `(block_row, block_col, dense block)` triplets. -/
structure BlockSparseMatrix where
  row_sizes : List Nat
  col_sizes : List Nat
  blocks : List (Nat × Nat × List (List ℚ))

def BlockSparseMatrix.rows (A : BlockSparseMatrix) : Nat := A.row_sizes.sum

def BlockSparseMatrix.cols (A : BlockSparseMatrix) : Nat := A.col_sizes.sum

/-- The constraint's Jacobian sub-block for clique `q`. -/
def cliqueJacobian (c : SapConstraint) (q : Nat) : List (List ℚ) :=
  if c.first_clique = q then c.J_first else c.J_second

/-- Modelled from the spec: assembly of the bundle's block-sparse Jacobian
(`SapConstraintBundle<T>::MakeConstraintBundleJacobian`, whose body is not
among the provided sources).  Each cluster is a block row whose rows stack
the cluster's constraints in cluster order; each participating clique is a
block column, in the order enumerated by the graph. -/
def makeJacobian (p : SapContactProblem) (delassus : List ℚ) :
    BlockSparseMatrix :=
  let pairs := p.constraints.zip delassus
  let keys := dedupFirst (pairs.map fun cd => constraintKey cd.1)
  let part := participatingCliques p
  { row_sizes := keys.map fun k =>
      (((pairs.filter fun cd => constraintKey cd.1 = k).map
        fun cd => cd.1.num_equations)).sum
    col_sizes := part.map fun q => p.clique_sizes.getD q 0
    blocks := keys.enum.flatMap fun ik =>
      (keyCliques ik.2).map fun q =>
        (ik.1, part.indexOf q,
          (pairs.filter fun cd => constraintKey cd.1 = ik.2).flatMap
            fun cd => cliqueJacobian cd.1 q) }

/-- The constraint bundle: the assembled Jacobian, regularization `R`, its
reciprocal `Rinv`, bias `vhat`, and the constraints (with their Delassus
entries) re-arranged into graph order. -/
structure SapConstraintBundle where
  pairs : List (SapConstraint × ℚ)
  R : List ℚ
  Rinv : List ℚ
  vhat : List ℚ
  J : BlockSparseMatrix

/-- Constraint references in the order dictated by the contact problem
graph. -/
def SapConstraintBundle.constraints (b : SapConstraintBundle) :
    List SapConstraint :=
  b.pairs.map Prod.fst

def SapConstraintBundle.num_constraints (b : SapConstraintBundle) : Nat :=
  b.constraints.length

/-- Number of constraint equations in the bundle. -/
def SapConstraintBundle.num_constraint_equations
    (b : SapConstraintBundle) : Nat :=
  (b.constraints.map SapConstraint.num_equations).sum

/-- Modelled from the spec: bundle assembly (`SapConstraintBundle`'s
constructor body is not among the provided sources).  For each cluster in
graph order and each constraint in cluster order, the constraint's
regularization routine is invoked with its Delassus entry and the local
`(Rᵢ, v̂ᵢ)` appended into the global `R`, `vhat`; `Rinv` is the elementwise
reciprocal of `R`. -/
def makeBundle (p : SapContactProblem) (delassus : List ℚ) :
    SapConstraintBundle :=
  let ordered := orderedPairs p delassus
  let R := ordered.flatMap fun cd => (cd.1.calcReg cd.2).1
  { pairs := ordered
    R := R
    Rinv := R.map fun r => 1 / r
    vhat := ordered.flatMap fun cd => (cd.1.calcReg cd.2).2
    J := makeJacobian p delassus }

/-- Modelled from the spec: the constructor's argument validation.  An
invalid-argument error is signalled when the problem pointer is null or when
the Delassus diagonal's size differs from `problem.num_constraints()`. -/
def SapConstraintBundle.create (problem : Option SapContactProblem)
    (delassus : List ℚ) : Except String SapConstraintBundle :=
  match problem with
  | none => .error "SapConstraintBundle: the problem must not be nullptr."
  | some p =>
      if delassus.length = p.num_constraints then
        .ok (makeBundle p delassus)
      else
        .error "SapConstraintBundle: delassus_diagonal of wrong size."

/-- Pointwise combination of three lists, truncating to the shortest. -/
def zipWith3 {α β γ δ : Type} (f : α → β → γ → δ) :
    List α → List β → List γ → List δ
  | a :: as, b :: bs, c :: cs => f a b c :: zipWith3 f as bs cs
  | _, _, _ => []

/-- Modelled from the spec: `CalcUnprojectedImpulses(vc, y)` computes
`y = -Rinv ⊙ (vc - vhat)` elementwise; size mismatches of `vc` or of the
output buffer `y` are precondition violations (no result is produced).  The
output buffer is modelled by its size `ysize`. -/
def SapConstraintBundle.CalcUnprojectedImpulses (b : SapConstraintBundle)
    (vc : List ℚ) (ysize : Nat) : Option (List ℚ) :=
  if vc.length = b.num_constraint_equations ∧
      ysize = b.num_constraint_equations then
    some (zipWith3 (fun rinv v vh => -(rinv * (v - vh))) b.Rinv vc b.vhat)
  else
    none

/-- Product of a dense block with a diagonal matrix given by its diagonal:
column `j` is scaled by `d[j]`. -/
def matMulDiag (M : List (List ℚ)) (d : List ℚ) : List (List ℚ) :=
  M.map fun row => row.zipWith (fun x y => x * y) d

/-- Per-constraint traversal for `ProjectImpulses` without gradients: slice
the constraint's sub-segment of `y` and apply its convex-set projection. -/
def projImpl : List (SapConstraint × ℚ) → List ℚ → List ℚ
  | [], _ => []
  | cd :: rest, y =>
      cd.1.project (y.take cd.1.num_equations) ++
        projImpl rest (y.drop cd.1.num_equations)

/-- Per-constraint traversal for `ProjectImpulses` when the gradient output
`dPdy` is requested: additionally store each constraint's local projection
gradient at the constraint's position. -/
def projGradImpl : List (SapConstraint × ℚ) → List ℚ →
    List ℚ × List (List (List ℚ))
  | [], _ => ([], [])
  | cd :: rest, y =>
      let tail := projGradImpl rest (y.drop cd.1.num_equations)
      (cd.1.project (y.take cd.1.num_equations) ++ tail.1,
        cd.1.projectGrad (y.take cd.1.num_equations) :: tail.2)

/-- Per-constraint traversal for
`ProjectImpulsesAndCalcConstraintsHessian`: the same projection traversal,
additionally computing `Gᵢ = dPᵢ/dyᵢ ⋅ Rᵢ⁻¹` from the constraint's slice of
the bundle's `Rinv`. -/
def projHessImpl : List (SapConstraint × ℚ) → List ℚ → List ℚ →
    List ℚ × List (List (List ℚ))
  | [], _, _ => ([], [])
  | cd :: rest, y, rinv =>
      let n := cd.1.num_equations
      let tail := projHessImpl rest (y.drop n) (rinv.drop n)
      (cd.1.project (y.take n) ++ tail.1,
        matMulDiag (cd.1.projectGrad (y.take n)) (rinv.take n) :: tail.2)

/-- Modelled from the spec: `ProjectImpulses(y, gamma)` with the optional
`dPdy` output not requested.  `y` of the wrong size is a precondition
violation. -/
def SapConstraintBundle.ProjectImpulses (b : SapConstraintBundle)
    (y : List ℚ) : Option (List ℚ) :=
  if y.length = b.num_constraint_equations then
    some (projImpl b.pairs y)
  else
    none

/-- Modelled from the spec: `ProjectImpulses(y, gamma, dPdy)` with the
optional `dPdy` output requested. -/
def SapConstraintBundle.ProjectImpulsesWithGrad (b : SapConstraintBundle)
    (y : List ℚ) : Option (List ℚ × List (List (List ℚ))) :=
  if y.length = b.num_constraint_equations then
    some (projGradImpl b.pairs y)
  else
    none

/-- Modelled from the spec:
`ProjectImpulsesAndCalcConstraintsHessian(y, gamma, G)`. -/
def SapConstraintBundle.ProjectImpulsesAndCalcConstraintsHessian
    (b : SapConstraintBundle) (y : List ℚ) :
    Option (List ℚ × List (List (List ℚ))) :=
  if y.length = b.num_constraint_equations then
    some (projHessImpl b.pairs y b.Rinv)
  else
    none

/-- The row offset of the `i`-th constraint (in bundle order): the sum of
the equation counts of the constraints before it. -/
def rowOffset (pairs : List (SapConstraint × ℚ)) (i : Nat) : Nat :=
  ((pairs.take i).map fun cd => cd.1.num_equations).sum

/-- The sub-segment of a concatenated vector: `n` entries starting at
`off`. -/
def seg (l : List ℚ) (off n : Nat) : List ℚ :=
  (l.drop off).take n

/-! ### Basic lemmas about `dedupFirst` -/

theorem mem_dedupFirst {α : Type} [DecidableEq α] {a : α} :
    ∀ {l : List α}, a ∈ dedupFirst l ↔ a ∈ l := by
  intro l
  induction l with
  | nil => simp [dedupFirst]
  | cons b l ih =>
    simp only [dedupFirst, List.mem_cons, List.mem_filter]
    constructor
    · rintro (rfl | ⟨h, _⟩)
      · exact Or.inl rfl
      · exact Or.inr (ih.mp h)
    · rintro (rfl | h)
      · exact Or.inl rfl
      · by_cases hab : a = b
        · exact Or.inl hab
        · exact Or.inr ⟨ih.mpr h, by simp [hab]⟩

theorem nodup_dedupFirst {α : Type} [DecidableEq α] :
    ∀ (l : List α), (dedupFirst l).Nodup := by
  intro l
  induction l with
  | nil => simp [dedupFirst]
  | cons b l ih =>
    refine List.Nodup.cons ?_ (List.Nodup.filter _ ih)
    intro hb
    have := (List.mem_filter.mp hb).2
    simp at this

/-! ### The flatMap-of-filters permutation lemma -/

theorem filter_filter_ne {α κ : Type} [DecidableEq κ] (f : α → κ)
    (k k' : κ) (hne : k' ≠ k) (l : List α) :
    ((l.filter fun a => ¬ f a = k).filter fun a => f a = k') =
      l.filter fun a => f a = k' := by
  rw [List.filter_filter]
  refine List.filter_congr ?_
  intro a _
  by_cases h : f a = k'
  · have : ¬ f a = k := by
      rw [h]; exact hne
    simp [h, this, hne]
  · simp [h]

theorem flatMap_filter_of_not_mem {α κ : Type} [DecidableEq κ] (f : α → κ)
    (k : κ) (l : List α) :
    ∀ (ks : List κ), k ∉ ks →
      (ks.flatMap fun k' => l.filter fun a => f a = k') =
        ks.flatMap fun k' =>
          (l.filter fun a => ¬ f a = k).filter fun a => f a = k' := by
  intro ks
  induction ks with
  | nil => simp
  | cons k' ks ih =>
    intro hk
    have hk' : k' ≠ k := fun h => hk (by simp [h])
    have hks : k ∉ ks := fun h => hk (by simp [h])
    simp only [List.flatMap_cons, ih hks, filter_filter_ne f k k' hk' l]

theorem flatMap_filter_perm {α κ : Type} [DecidableEq κ] (f : α → κ) :
    ∀ (ks : List κ) (l : List α), ks.Nodup → (∀ a ∈ l, f a ∈ ks) →
      (ks.flatMap fun k => l.filter fun a => f a = k).Perm l := by
  intro ks
  induction ks with
  | nil =>
    intro l _ hm
    cases l with
    | nil => simp
    | cons a l => exact absurd (hm a (by simp)) (by simp)
  | cons k ks ih =>
    intro l hn hm
    have hnk : k ∉ ks := (List.nodup_cons.mp hn).1
    have hn' : ks.Nodup := (List.nodup_cons.mp hn).2
    have hm' : ∀ a ∈ (l.filter fun a => ¬ f a = k), f a ∈ ks := by
      intro a ha
      have hal := List.mem_filter.mp ha
      have : f a ∈ k :: ks := hm a hal.1
      have hne : ¬ f a = k := by simpa using hal.2
      rcases List.mem_cons.mp this with h | h
      · exact absurd h hne
      · exact h
    have hperm := ih (l.filter fun a => ¬ f a = k) hn' hm'
    have h1 : ((k :: ks).flatMap fun k' => l.filter fun a => f a = k') =
        (l.filter fun a => f a = k) ++
          (ks.flatMap fun k' =>
            (l.filter fun a => ¬ f a = k).filter fun a => f a = k') := by
      rw [List.flatMap_cons, flatMap_filter_of_not_mem f k l ks hnk]
    rw [h1]
    refine List.Perm.trans (List.Perm.append_left _ hperm) ?_
    simpa using List.filter_append_perm (fun a => f a = k) l

/-- The graph re-ordering of the constraint/Delassus pairs is a permutation
of the problem-order pairs. -/
theorem orderedPairs_perm (p : SapContactProblem) (delassus : List ℚ) :
    (orderedPairs p delassus).Perm (p.constraints.zip delassus) := by
  refine flatMap_filter_perm _ _ _ (nodup_dedupFirst _) ?_
  intro cd hcd
  exact mem_dedupFirst.mpr (List.mem_map_of_mem _ hcd)

/-- Membership in the graph-ordered pair list comes from the problem. -/
theorem mem_orderedPairs {p : SapContactProblem} {d : List ℚ}
    {cd : SapConstraint × ℚ} (h : cd ∈ orderedPairs p d) :
    cd.1 ∈ p.constraints := by
  have hz : cd ∈ p.constraints.zip d := (orderedPairs_perm p d).mem_iff.mp h
  obtain ⟨c, x⟩ := cd
  exact (List.of_mem_zip hz).1

/-- Well-formedness of a contact problem: regularization vectors sized by
the constraint's equation count, projections and gradients dimensioned by
the equation count, positive clique DOF counts and in-range clique
indices. -/
structure WellFormed (p : SapContactProblem) : Prop where
  reg_sizes : ∀ c ∈ p.constraints, ∀ x : ℚ,
    (c.calcReg x).1.length = c.num_equations ∧
      (c.calcReg x).2.length = c.num_equations
  proj_size : ∀ c ∈ p.constraints, ∀ y : List ℚ,
    y.length = c.num_equations → (c.project y).length = c.num_equations
  grad_size : ∀ c ∈ p.constraints, ∀ y : List ℚ,
    y.length = c.num_equations →
      (c.projectGrad y).length = c.num_equations ∧
        ∀ row ∈ c.projectGrad y, row.length = c.num_equations
  clique_pos : ∀ s ∈ p.clique_sizes, 0 < s
  cliques_lt : ∀ c ∈ p.constraints,
    c.first_clique < p.num_cliques ∧
      ∀ s, c.second_clique = some s → s < p.num_cliques

/-- `num_constraint_equations` as a sum over the graph-ordered pairs. -/
theorem num_constraint_equations_eq_pairs_sum (p : SapContactProblem)
    (d : List ℚ) :
    (makeBundle p d).num_constraint_equations =
      ((orderedPairs p d).map fun cd => cd.1.num_equations).sum := by
  show ((((orderedPairs p d).map Prod.fst).map
    SapConstraint.num_equations)).sum = _
  rw [List.map_map]
  rfl

theorem R_length (p : SapContactProblem) (d : List ℚ) (hwf : WellFormed p) :
    (makeBundle p d).R.length = (makeBundle p d).num_constraint_equations := by
  show ((orderedPairs p d).flatMap fun cd => (cd.1.calcReg cd.2).1).length = _
  rw [List.length_flatMap, num_constraint_equations_eq_pairs_sum]
  congr 1
  refine List.map_congr_left ?_
  intro cd hcd
  exact (hwf.reg_sizes cd.1 (mem_orderedPairs hcd) cd.2).1

theorem vhat_length (p : SapContactProblem) (d : List ℚ)
    (hwf : WellFormed p) :
    (makeBundle p d).vhat.length =
      (makeBundle p d).num_constraint_equations := by
  show ((orderedPairs p d).flatMap fun cd => (cd.1.calcReg cd.2).2).length = _
  rw [List.length_flatMap, num_constraint_equations_eq_pairs_sum]
  congr 1
  refine List.map_congr_left ?_
  intro cd hcd
  exact (hwf.reg_sizes cd.1 (mem_orderedPairs hcd) cd.2).2

theorem Rinv_eq_map (p : SapContactProblem) (d : List ℚ) :
    (makeBundle p d).Rinv = (makeBundle p d).R.map fun r => 1 / r := rfl

theorem Rinv_length (p : SapContactProblem) (d : List ℚ)
    (hwf : WellFormed p) :
    (makeBundle p d).Rinv.length =
      (makeBundle p d).num_constraint_equations := by
  rw [Rinv_eq_map, List.length_map]
  exact R_length p d hwf

/-! ### `zipWith3` facts -/

theorem zipWith3_length {α β γ δ : Type} (f : α → β → γ → δ) :
    ∀ (as : List α) (bs : List β) (cs : List γ),
      (zipWith3 f as bs cs).length =
        min as.length (min bs.length cs.length) := by
  intro as
  induction as with
  | nil => intro bs cs; simp [zipWith3]
  | cons a as ih =>
    intro bs cs
    cases bs with
    | nil => simp [zipWith3]
    | cons b bs =>
      cases cs with
      | nil => simp [zipWith3]
      | cons c cs =>
        simp only [zipWith3, List.length_cons, ih]
        omega

theorem zipWith3_getD {α β γ δ : Type} (f : α → β → γ → δ)
    (da : α) (db : β) (dc : γ) (dd : δ) :
    ∀ (as : List α) (bs : List β) (cs : List γ) (k : Nat),
      k < as.length → k < bs.length → k < cs.length →
      (zipWith3 f as bs cs).getD k dd =
        f (as.getD k da) (bs.getD k db) (cs.getD k dc) := by
  intro as
  induction as with
  | nil => intro bs cs k h; simp at h
  | cons a as ih =>
    intro bs cs k ha hb hc
    cases bs with
    | nil => simp at hb
    | cons b bs =>
      cases cs with
      | nil => simp at hc
      | cons c cs =>
        cases k with
        | zero => simp [zipWith3]
        | succ k =>
          simp only [zipWith3, List.getD_cons_succ]
          exact ih bs cs k (by simpa using ha) (by simpa using hb)
            (by simpa using hc)

/-- C1: with `vc` (and the output buffer) sized
`num_constraint_equations()`, `CalcUnprojectedImpulses` produces
`y[k] = -(vc[k] - vhat[k]) / R[k]` for every index `k`; any size mismatch
of `vc` or `y` is a precondition violation and produces no result. -/
theorem C1_calc_unprojected_impulses (p : SapContactProblem) (d : List ℚ)
    (hwf : WellFormed p) :
    (∀ (vc : List ℚ) (ysize : Nat),
        vc.length = (makeBundle p d).num_constraint_equations →
        ysize = (makeBundle p d).num_constraint_equations →
        ∃ y : List ℚ,
          (makeBundle p d).CalcUnprojectedImpulses vc ysize = some y ∧
          y.length = (makeBundle p d).num_constraint_equations ∧
          ∀ k, k < (makeBundle p d).num_constraint_equations →
            y.getD k 0 =
              -((vc.getD k 0 - (makeBundle p d).vhat.getD k 0) /
                (makeBundle p d).R.getD k 0)) ∧
    (∀ (vc : List ℚ) (ysize : Nat),
        ¬(vc.length = (makeBundle p d).num_constraint_equations ∧
            ysize = (makeBundle p d).num_constraint_equations) →
        (makeBundle p d).CalcUnprojectedImpulses vc ysize = none) := by
  have hR := R_length p d hwf
  have hRinv := Rinv_length p d hwf
  have hvh := vhat_length p d hwf
  constructor
  · intro vc ysize hvc hy
    refine ⟨zipWith3 (fun rinv v vh => -(rinv * (v - vh)))
      (makeBundle p d).Rinv vc (makeBundle p d).vhat, ?_, ?_, ?_⟩
    · unfold SapConstraintBundle.CalcUnprojectedImpulses
      rw [if_pos ⟨hvc, hy⟩]
    · rw [zipWith3_length, hRinv, hvc, hvh]
      omega
    · intro k hk
      rw [zipWith3_getD (fun rinv v vh => -(rinv * (v - vh))) 0 0 0 0
        _ _ _ k (by omega) (by omega) (by omega)]
      have hkR : k < (makeBundle p d).R.length := by omega
      have hmap : (makeBundle p d).Rinv.getD k 0 =
          1 / (makeBundle p d).R.getD k 0 := by
        rw [Rinv_eq_map, List.getD_eq_getElem _ _ (by simpa using hkR),
          List.getD_eq_getElem _ _ hkR]
        simp
      rw [hmap]
      ring
  · intro vc ysize h
    unfold SapConstraintBundle.CalcUnprojectedImpulses
    rw [if_neg h]

/-- C2: bundle construction succeeds exactly when the problem pointer is
non-null and the Delassus diagonal's length equals the problem's
`num_constraints()`; otherwise it fails with an invalid-argument error. -/
theorem C2_construction_error_iff (problem : Option SapContactProblem)
    (delassus : List ℚ) :
    ((SapConstraintBundle.create problem delassus).isOk = true ↔
      ∃ p, problem = some p ∧ delassus.length = p.num_constraints) ∧
    ((∃ e, SapConstraintBundle.create problem delassus = .error e) ↔
      problem = none ∨
        ∃ p, problem = some p ∧ delassus.length ≠ p.num_constraints) := by
  cases problem with
  | none => simp [SapConstraintBundle.create, Except.isOk, Except.toBool]
  | some p =>
    by_cases h : delassus.length = p.num_constraints
    · simp [SapConstraintBundle.create, h, Except.isOk, Except.toBool]
    · simp [SapConstraintBundle.create, h, Except.isOk, Except.toBool]

/-! ### A concrete example problem, used to instantiate the theorems -/

/-- Example constraint: two-clique (0,1), one equation. -/
def exC0 : SapConstraint :=
  { num_equations := 1, first_clique := 0, second_clique := some 1,
    J_first := [[1, 0, 0]], J_second := [[0, 1, 0, 0]],
    calcReg := fun x => ([x], [1]),
    project := fun y => y,
    projectGrad := fun _ => [[1]] }

/-- Example constraint: unary on clique 0, two equations. -/
def exC1 : SapConstraint :=
  { num_equations := 2, first_clique := 0, second_clique := none,
    J_first := [[1, 0, 0], [0, 1, 0]], J_second := [],
    calcReg := fun x => ([x, 3], [0, 0]),
    project := fun y => y.map fun t => max t 0,
    projectGrad := fun _ => [[1, 0], [0, 1]] }

/-- Example constraint: two-clique (0,1) again, one equation. -/
def exC2 : SapConstraint :=
  { num_equations := 1, first_clique := 0, second_clique := some 1,
    J_first := [[0, 0, 1]], J_second := [[1, 0, 0, 0]],
    calcReg := fun x => ([x], [5]),
    project := fun y => y,
    projectGrad := fun _ => [[2]] }

/-- Example problem: three cliques of 3, 4 and 2 DOFs; clique 2 is isolated
(referenced by no constraint). -/
def exProblem : SapContactProblem :=
  { clique_sizes := [3, 4, 2], constraints := [exC0, exC1, exC2] }

def exDelassus : List ℚ := [1, 2, 3]

theorem exProblem_wf : WellFormed exProblem := by
  constructor
  · intro c hc x
    simp only [exProblem, List.mem_cons, List.not_mem_nil, or_false] at hc
    rcases hc with rfl | rfl | rfl <;> simp [exC0, exC1, exC2]
  · intro c hc y hy
    simp only [exProblem, List.mem_cons, List.not_mem_nil, or_false] at hc
    rcases hc with rfl | rfl | rfl <;>
      simp_all [exC0, exC1, exC2]
  · intro c hc y hy
    simp only [exProblem, List.mem_cons, List.not_mem_nil, or_false] at hc
    rcases hc with rfl | rfl | rfl <;> simp_all [exC0, exC1, exC2]
  · intro s hs
    simp only [exProblem, List.mem_cons, List.not_mem_nil, or_false] at hs
    rcases hs with rfl | rfl | rfl <;> norm_num
  · intro c hc
    simp only [exProblem, List.mem_cons, List.not_mem_nil, or_false] at hc
    rcases hc with rfl | rfl | rfl <;>
      simp [exC0, exC1, exC2, SapContactProblem.num_cliques, exProblem]

/-- Witness for C1 at the example problem: a `vc`/`y` size mismatch is
rejected. -/
theorem C1_calc_unprojected_impulses_witness :
    WellFormed exProblem ∧
      (makeBundle exProblem exDelassus).CalcUnprojectedImpulses
        [1, 2, 3, 4] 7 = none :=
  ⟨exProblem_wf,
    (C1_calc_unprojected_impulses exProblem exDelassus exProblem_wf).2
      [1, 2, 3, 4] 7 (by decide)⟩

/-! ### Helper facts for the counting claims -/

theorem sum_flatMap' {α : Type} (l : List α) (f : α → List Nat) :
    (l.flatMap f).sum = (l.map fun a => (f a).sum).sum := by
  induction l with
  | nil => simp
  | cons a l ih => simp [ih]

theorem list_sum_eq_range_sum (l : List Nat) :
    l.sum = ∑ i ∈ Finset.range l.length, l.getD i 0 := by
  induction l with
  | nil => simp
  | cons a l ih =>
      have h : (a :: l).length = l.length + 1 := rfl
      rw [List.sum_cons, ih, h, Finset.sum_range_succ']
      simp [Nat.add_comm]

/-- The bundle's (graph-ordered) constraint list is a permutation of the
problem's constraint list. -/
theorem bundle_constraints_perm (p : SapContactProblem) (d : List ℚ)
    (hd : d.length = p.num_constraints) :
    (makeBundle p d).constraints.Perm p.constraints := by
  have h2 := (orderedPairs_perm p d).map Prod.fst
  have h3 : (p.constraints.zip d).map Prod.fst = p.constraints :=
    List.map_fst_zip _ _ (Nat.le_of_eq hd.symm)
  rw [h3] at h2
  exact h2

/-- C3: the bundle's `num_constraint_equations()` equals the sum over the
problem's constraints of each constraint's own equation count, regardless of
the graph's clustering and ordering, and it equals the row count of the
bundle's Jacobian `J()`. -/
theorem C3_num_constraint_equations (p : SapContactProblem) (d : List ℚ)
    (hd : d.length = p.num_constraints) :
    (makeBundle p d).num_constraint_equations =
      (p.constraints.map SapConstraint.num_equations).sum ∧
    (makeBundle p d).J.rows = (makeBundle p d).num_constraint_equations := by
  constructor
  · exact ((bundle_constraints_perm p d hd).map
      SapConstraint.num_equations).sum_eq
  · have h1 : (makeBundle p d).J.rows =
        ((dedupFirst ((p.constraints.zip d).map fun cd =>
            constraintKey cd.1)).map
          fun k => (((p.constraints.zip d).filter fun cd =>
              constraintKey cd.1 = k).map
            fun cd => cd.1.num_equations).sum).sum := rfl
    rw [h1, num_constraint_equations_eq_pairs_sum]
    show _ = ((orderedPairs p d).map fun cd => cd.1.num_equations).sum
    rw [orderedPairs, List.map_flatMap, sum_flatMap']

theorem C3_num_constraint_equations_witness :
    exDelassus.length = exProblem.num_constraints ∧
    ((makeBundle exProblem exDelassus).num_constraint_equations =
        (exProblem.constraints.map SapConstraint.num_equations).sum ∧
      (makeBundle exProblem exDelassus).J.rows =
        (makeBundle exProblem exDelassus).num_constraint_equations) :=
  ⟨by decide, C3_num_constraint_equations exProblem exDelassus (by decide)⟩

/-- A clique belongs to a cluster key's clique list exactly when the
constraint references it. -/
theorem mem_keyCliques_constraintKey (c : SapConstraint) (q : Nat) :
    q ∈ keyCliques (constraintKey c) ↔
      c.first_clique = q ∨ c.second_clique = some q := by
  cases hsc : c.second_clique with
  | none => simp [constraintKey, keyCliques, hsc, eq_comm]
  | some s =>
      simp only [constraintKey, keyCliques, hsc, Option.some.injEq]
      split_ifs with h
      · simp only [List.mem_singleton]
        omega
      · simp only [List.mem_cons, List.not_mem_nil, or_false]
        omega

/-- A clique participates exactly when some constraint references it. -/
theorem mem_participatingCliques (p : SapContactProblem) (q : Nat) :
    q ∈ participatingCliques p ↔
      ∃ c ∈ p.constraints, c.first_clique = q ∨ c.second_clique = some q := by
  unfold participatingCliques
  rw [mem_dedupFirst, List.mem_flatMap]
  constructor
  · rintro ⟨k, hk, hq⟩
    obtain ⟨c, hc, rfl⟩ := List.mem_map.mp (mem_dedupFirst.mp hk)
    exact ⟨c, hc, (mem_keyCliques_constraintKey c q).mp hq⟩
  · rintro ⟨c, hc, hq⟩
    exact ⟨constraintKey c, mem_dedupFirst.mpr (List.mem_map_of_mem _ hc),
      (mem_keyCliques_constraintKey c q).mpr hq⟩

/-- C4: the Jacobian's column count is the summed DOF of participating
cliques only (those referenced by at least one constraint); when the
problem has an isolated clique, the column count is strictly below the
problem's total DOF. -/
theorem C4_jacobian_columns (p : SapContactProblem) (d : List ℚ)
    (hwf : WellFormed p) :
    (makeBundle p d).J.cols =
      ((participatingCliques p).map fun q => p.clique_sizes.getD q 0).sum ∧
    (∀ q ∈ participatingCliques p,
        ∃ c ∈ p.constraints, c.first_clique = q ∨ c.second_clique = some q) ∧
    ((∃ q0, q0 < p.num_cliques ∧ ∀ c ∈ p.constraints,
        c.first_clique ≠ q0 ∧ c.second_clique ≠ some q0) →
      (makeBundle p d).J.cols < p.num_velocities) := by
  refine ⟨rfl, fun q hq => (mem_participatingCliques p q).mp hq, ?_⟩
  rintro ⟨q0, hq0N, hq0⟩
  have hnot : q0 ∉ participatingCliques p := by
    intro hmem
    obtain ⟨c, hc, hor⟩ := (mem_participatingCliques p q0).mp hmem
    rcases hor with h | h
    · exact (hq0 c hc).1 h
    · exact (hq0 c hc).2 h
  have hnd : (participatingCliques p).Nodup := nodup_dedupFirst _
  have hsub : (participatingCliques p).toFinset ⊆
      Finset.range p.num_cliques := by
    intro q hq
    simp only [List.mem_toFinset] at hq
    obtain ⟨c, hc, hor⟩ := (mem_participatingCliques p q).mp hq
    simp only [Finset.mem_range]
    rcases hor with h | h
    · exact h ▸ (hwf.cliques_lt c hc).1
    · exact (hwf.cliques_lt c hc).2 q h
  have hcols : (makeBundle p d).J.cols =
      (participatingCliques p).toFinset.sum
        fun q => p.clique_sizes.getD q 0 := by
    show ((participatingCliques p).map
      fun q => p.clique_sizes.getD q 0).sum = _
    exact (List.sum_toFinset _ hnd).symm
  have htot : p.num_velocities =
      ∑ i ∈ Finset.range p.num_cliques, p.clique_sizes.getD i 0 :=
    list_sum_eq_range_sum p.clique_sizes
  have hpos : 0 < p.clique_sizes.getD q0 0 := by
    have hmem : p.clique_sizes.getD q0 0 ∈ p.clique_sizes := by
      rw [List.getD_eq_getElem _ _ hq0N]
      exact List.getElem_mem hq0N
    exact hwf.clique_pos _ hmem
  rw [hcols, htot]
  exact Finset.sum_lt_sum_of_subset hsub (Finset.mem_range.mpr hq0N)
    (by simp [hnot]) hpos (fun j _ _ => Nat.zero_le _)

theorem C4_jacobian_columns_witness :
    WellFormed exProblem ∧
      (makeBundle exProblem exDelassus).J.cols < exProblem.num_velocities :=
  ⟨exProblem_wf,
    (C4_jacobian_columns exProblem exDelassus exProblem_wf).2.2
      ⟨2, by decide, by decide⟩⟩

/-- C6: when every constraint's regularization routine returns strictly
positive entries (at the Delassus values supplied), every entry of `R()` is
strictly positive and `Rinv()` is its exact elementwise reciprocal:
`Rinv[k] * R[k] = 1` for all `k`. -/
theorem C6_R_positive_and_Rinv_reciprocal (p : SapContactProblem)
    (d : List ℚ)
    (hpos : ∀ cd ∈ p.constraints.zip d, ∀ r ∈ (cd.1.calcReg cd.2).1, 0 < r) :
    (∀ r ∈ (makeBundle p d).R, 0 < r) ∧
    (makeBundle p d).Rinv.length = (makeBundle p d).R.length ∧
    ∀ k, k < (makeBundle p d).R.length →
      (makeBundle p d).Rinv.getD k 0 * (makeBundle p d).R.getD k 0 = 1 := by
  have hR : ∀ r ∈ (makeBundle p d).R, 0 < r := by
    intro r hr
    have hmem : r ∈ (orderedPairs p d).flatMap
        fun cd => (cd.1.calcReg cd.2).1 := hr
    obtain ⟨cd, hcd, hrcd⟩ := List.mem_flatMap.mp hmem
    exact hpos cd ((orderedPairs_perm p d).mem_iff.mp hcd) r hrcd
  refine ⟨hR, by rw [Rinv_eq_map, List.length_map], ?_⟩
  intro k hk
  have hmem : (makeBundle p d).R.getD k 0 ∈ (makeBundle p d).R := by
    rw [List.getD_eq_getElem _ _ hk]
    exact List.getElem_mem hk
  have hne : (makeBundle p d).R.getD k 0 ≠ 0 := ne_of_gt (hR _ hmem)
  have hmap : (makeBundle p d).Rinv.getD k 0 =
      1 / (makeBundle p d).R.getD k 0 := by
    rw [Rinv_eq_map, List.getD_eq_getElem _ _ (by simpa using hk),
      List.getD_eq_getElem _ _ hk]
    simp
  rw [hmap]
  exact one_div_mul_cancel hne

theorem C6_R_positive_and_Rinv_reciprocal_witness :
    (∀ cd ∈ exProblem.constraints.zip exDelassus,
        ∀ r ∈ (cd.1.calcReg cd.2).1, 0 < r) ∧
    ((∀ r ∈ (makeBundle exProblem exDelassus).R, 0 < r) ∧
      (makeBundle exProblem exDelassus).Rinv.length =
        (makeBundle exProblem exDelassus).R.length ∧
      ∀ k, k < (makeBundle exProblem exDelassus).R.length →
        (makeBundle exProblem exDelassus).Rinv.getD k 0 *
          (makeBundle exProblem exDelassus).R.getD k 0 = 1) :=
  ⟨by decide,
    C6_R_positive_and_Rinv_reciprocal exProblem exDelassus (by decide)⟩

/-! ### Row offsets and segments -/

theorem rowOffset_zero (pairs : List (SapConstraint × ℚ)) :
    rowOffset pairs 0 = 0 := rfl

theorem rowOffset_succ_cons (cd : SapConstraint × ℚ)
    (rest : List (SapConstraint × ℚ)) (i : Nat) :
    rowOffset (cd :: rest) (i + 1) =
      cd.1.num_equations + rowOffset rest i := by
  simp [rowOffset]

theorem seg_zero (l : List ℚ) (n : Nat) : seg l 0 n = l.take n := by
  simp [seg]

theorem seg_append_right {l1 : List ℚ} {k : Nat} (h : l1.length = k)
    (l2 : List ℚ) (off n : Nat) :
    seg (l1 ++ l2) (k + off) n = seg l2 off n := by
  simp only [seg]
  rw [← List.drop_drop, List.drop_left' h]

theorem seg_drop (l : List ℚ) (off1 off2 n : Nat) :
    seg (l.drop off1) off2 n = seg l (off1 + off2) n := by
  simp only [seg, List.drop_drop]

theorem seg_map (f : ℚ → ℚ) (l : List ℚ) (off n : Nat) :
    seg (l.map f) off n = (seg l off n).map f := by
  simp only [seg, List.map_drop, List.map_take]

theorem seg_length (l : List ℚ) (off n : Nat) :
    (seg l off n).length = min n (l.length - off) := by
  simp [seg]

theorem rowOffset_add_le :
    ∀ (pairs : List (SapConstraint × ℚ)) (i : Nat), i < pairs.length →
      rowOffset pairs i + (pairs.getD i default).1.num_equations ≤
        (pairs.map fun cd => cd.1.num_equations).sum := by
  intro pairs
  induction pairs with
  | nil => intro i hi; simp at hi
  | cons cd rest ih =>
    intro i hi
    cases i with
    | zero => simp [rowOffset_zero]
    | succ i =>
      rw [rowOffset_succ_cons]
      have := ih i (by simpa using hi)
      simp only [List.getD_cons_succ, List.map_cons, List.sum_cons]
      omega

/-! ### The three projection entry points share the same `γ` -/

theorem projGradImpl_fst :
    ∀ (pairs : List (SapConstraint × ℚ)) (y : List ℚ),
      (projGradImpl pairs y).1 = projImpl pairs y := by
  intro pairs
  induction pairs with
  | nil => intro y; rfl
  | cons cd rest ih => intro y; simp [projImpl, projGradImpl, ih]

theorem projHessImpl_fst :
    ∀ (pairs : List (SapConstraint × ℚ)) (y rinv : List ℚ),
      (projHessImpl pairs y rinv).1 = projImpl pairs y := by
  intro pairs
  induction pairs with
  | nil => intro y rinv; rfl
  | cons cd rest ih => intro y rinv; simp [projImpl, projHessImpl, ih]

/-- C10: the three entry points agree on the projection `γ = P(y)`: the
`gamma` of `ProjectImpulses` is the same whether or not `dPdy` is requested,
and equals the `gamma` of `ProjectImpulsesAndCalcConstraintsHessian`. -/
theorem C10_projection_gamma_agreement (b : SapConstraintBundle)
    (y : List ℚ) :
    (b.ProjectImpulsesWithGrad y).map Prod.fst = b.ProjectImpulses y ∧
    (b.ProjectImpulsesAndCalcConstraintsHessian y).map Prod.fst =
      b.ProjectImpulses y := by
  unfold SapConstraintBundle.ProjectImpulses
    SapConstraintBundle.ProjectImpulsesWithGrad
    SapConstraintBundle.ProjectImpulsesAndCalcConstraintsHessian
  by_cases h : y.length = b.num_constraint_equations <;>
    simp [h, projGradImpl_fst, projHessImpl_fst]

/-! ### Per-constraint segment behaviour of the projection traversals -/

theorem projImpl_length :
    ∀ (pairs : List (SapConstraint × ℚ)) (y : List ℚ),
      (∀ cd ∈ pairs, ∀ z : List ℚ, z.length = cd.1.num_equations →
        (cd.1.project z).length = cd.1.num_equations) →
      y.length = (pairs.map fun cd => cd.1.num_equations).sum →
      (projImpl pairs y).length =
        (pairs.map fun cd => cd.1.num_equations).sum := by
  intro pairs
  induction pairs with
  | nil => intro y _ _; rfl
  | cons cd rest ih =>
    intro y hproj hy
    simp only [List.map_cons, List.sum_cons] at hy ⊢
    have htake : (y.take cd.1.num_equations).length = cd.1.num_equations := by
      rw [List.length_take]; omega
    have hplen := hproj cd (List.mem_cons_self _ _) _ htake
    have hdrop : (y.drop cd.1.num_equations).length =
        (rest.map fun cd => cd.1.num_equations).sum := by
      rw [List.length_drop]; omega
    simp only [projImpl, List.length_append, hplen,
      ih _ (fun cd h => hproj cd (List.mem_cons_of_mem _ h)) hdrop]

theorem projGradImpl_snd_length :
    ∀ (pairs : List (SapConstraint × ℚ)) (y : List ℚ),
      (projGradImpl pairs y).2.length = pairs.length := by
  intro pairs
  induction pairs with
  | nil => intro y; rfl
  | cons cd rest ih => intro y; simp [projGradImpl, ih]

theorem projHessImpl_snd_length :
    ∀ (pairs : List (SapConstraint × ℚ)) (y rinv : List ℚ),
      (projHessImpl pairs y rinv).2.length = pairs.length := by
  intro pairs
  induction pairs with
  | nil => intro y rinv; rfl
  | cons cd rest ih => intro y rinv; simp [projHessImpl, ih]

/-- The projection traversal with gradients: constraint `i`'s segment of
`gamma` is its own projection of its segment of `y`, and the `i`-th stored
gradient is its own local gradient on that segment. -/
theorem projGradImpl_spec :
    ∀ (pairs : List (SapConstraint × ℚ)) (y : List ℚ),
      (∀ cd ∈ pairs, ∀ z : List ℚ, z.length = cd.1.num_equations →
        (cd.1.project z).length = cd.1.num_equations) →
      y.length = (pairs.map fun cd => cd.1.num_equations).sum →
      ∀ i, i < pairs.length →
        seg (projGradImpl pairs y).1 (rowOffset pairs i)
            (pairs.getD i default).1.num_equations =
          (pairs.getD i default).1.project
            (seg y (rowOffset pairs i)
              (pairs.getD i default).1.num_equations) ∧
        (projGradImpl pairs y).2.getD i [] =
          (pairs.getD i default).1.projectGrad
            (seg y (rowOffset pairs i)
              (pairs.getD i default).1.num_equations) := by
  intro pairs
  induction pairs with
  | nil => intro y _ _ i hi; simp at hi
  | cons cd rest ih =>
    intro y hproj hy i hi
    simp only [List.map_cons, List.sum_cons] at hy
    have htake : (y.take cd.1.num_equations).length = cd.1.num_equations := by
      rw [List.length_take]; omega
    have hplen := hproj cd (List.mem_cons_self _ _) _ htake
    cases i with
    | zero =>
      simp only [rowOffset_zero, List.getD_cons_zero, projGradImpl,
        seg_zero]
      constructor
      · rw [List.take_left' hplen]
      · trivial
    | succ i =>
      have hdrop : (y.drop cd.1.num_equations).length =
          (rest.map fun cd => cd.1.num_equations).sum := by
        rw [List.length_drop]; omega
      have hrest := ih (y.drop cd.1.num_equations)
        (fun cd h => hproj cd (List.mem_cons_of_mem _ h)) hdrop i
        (by simpa using hi)
      rw [rowOffset_succ_cons]
      simp only [List.getD_cons_succ, projGradImpl, List.getD_cons_succ]
      rw [seg_drop] at hrest
      constructor
      · rw [seg_append_right hplen, projGradImpl_fst, ← projGradImpl_fst]
        exact hrest.1
      · exact hrest.2

/-- The Hessian traversal: the `i`-th block is the local gradient times the
diagonal of the constraint's slice of `rinv`. -/
theorem projHessImpl_spec :
    ∀ (pairs : List (SapConstraint × ℚ)) (y rinv : List ℚ),
      ∀ i, i < pairs.length →
        (projHessImpl pairs y rinv).2.getD i [] =
          matMulDiag
            ((pairs.getD i default).1.projectGrad
              (seg y (rowOffset pairs i)
                (pairs.getD i default).1.num_equations))
            (seg rinv (rowOffset pairs i)
              (pairs.getD i default).1.num_equations) := by
  intro pairs
  induction pairs with
  | nil => intro y rinv i hi; simp at hi
  | cons cd rest ih =>
    intro y rinv i hi
    cases i with
    | zero =>
      simp only [rowOffset_zero, List.getD_cons_zero, projHessImpl,
        seg_zero, List.getD_cons_zero]
    | succ i =>
      have hrest := ih (y.drop cd.1.num_equations)
        (rinv.drop cd.1.num_equations) i (by simpa using hi)
      rw [rowOffset_succ_cons]
      simp only [List.getD_cons_succ, projHessImpl]
      rw [seg_drop, seg_drop] at hrest
      exact hrest

theorem num_constraints_eq_pairs_length (b : SapConstraintBundle) :
    b.num_constraints = b.pairs.length := by
  simp [SapConstraintBundle.num_constraints, SapConstraintBundle.constraints]

theorem num_constraint_equations_pairs (b : SapConstraintBundle) :
    b.num_constraint_equations =
      (b.pairs.map fun cd => cd.1.num_equations).sum := by
  show ((b.pairs.map Prod.fst).map SapConstraint.num_equations).sum = _
  rw [List.map_map]
  rfl

theorem pairs_getD_mem (p : SapContactProblem) (d : List ℚ) (i : Nat)
    (hi : i < (makeBundle p d).pairs.length) :
    ((makeBundle p d).pairs.getD i default).1 ∈ p.constraints := by
  have hmem : (makeBundle p d).pairs.getD i default ∈
      (makeBundle p d).pairs := by
    rw [List.getD_eq_getElem _ _ hi]
    exact List.getElem_mem hi
  exact mem_orderedPairs hmem

theorem hproj_of_wf (p : SapContactProblem) (d : List ℚ)
    (hwf : WellFormed p) :
    ∀ cd ∈ (makeBundle p d).pairs, ∀ z : List ℚ,
      z.length = cd.1.num_equations →
      (cd.1.project z).length = cd.1.num_equations := by
  intro cd hcd z hz
  exact hwf.proj_size cd.1 (mem_orderedPairs hcd) z hz

/-- C7: `ProjectImpulses` writes, per constraint in bundle order, the
`gamma` sub-segment at the constraint's row offset as that constraint's own
projection of the matching sub-segment of `y`; the `gamma` segment of a
constraint depends only on its own segment of `y` (separability); and the
requested `dPdy` holds one gradient per constraint, at the constraint's
position, sized by its own equation count. -/
theorem C7_project_impulses_segments (p : SapContactProblem) (d : List ℚ)
    (hwf : WellFormed p) (y : List ℚ)
    (hy : y.length = (makeBundle p d).num_constraint_equations) :
    ∃ gamma dPdy,
      (makeBundle p d).ProjectImpulsesWithGrad y = some (gamma, dPdy) ∧
      (makeBundle p d).ProjectImpulses y = some gamma ∧
      gamma.length = (makeBundle p d).num_constraint_equations ∧
      dPdy.length = (makeBundle p d).num_constraints ∧
      (∀ i, i < (makeBundle p d).num_constraints →
        seg gamma (rowOffset (makeBundle p d).pairs i)
            ((makeBundle p d).pairs.getD i default).1.num_equations =
          ((makeBundle p d).pairs.getD i default).1.project
            (seg y (rowOffset (makeBundle p d).pairs i)
              ((makeBundle p d).pairs.getD i default).1.num_equations) ∧
        dPdy.getD i [] =
          ((makeBundle p d).pairs.getD i default).1.projectGrad
            (seg y (rowOffset (makeBundle p d).pairs i)
              ((makeBundle p d).pairs.getD i default).1.num_equations) ∧
        (dPdy.getD i []).length =
          ((makeBundle p d).pairs.getD i default).1.num_equations) ∧
      (∀ y' : List ℚ,
        y'.length = (makeBundle p d).num_constraint_equations →
        ∀ i, i < (makeBundle p d).num_constraints →
        seg y' (rowOffset (makeBundle p d).pairs i)
            ((makeBundle p d).pairs.getD i default).1.num_equations =
          seg y (rowOffset (makeBundle p d).pairs i)
            ((makeBundle p d).pairs.getD i default).1.num_equations →
        ∀ gamma', (makeBundle p d).ProjectImpulses y' = some gamma' →
          seg gamma' (rowOffset (makeBundle p d).pairs i)
              ((makeBundle p d).pairs.getD i default).1.num_equations =
            seg gamma (rowOffset (makeBundle p d).pairs i)
              ((makeBundle p d).pairs.getD i default).1.num_equations) := by
  have hpl : y.length =
      ((makeBundle p d).pairs.map fun cd => cd.1.num_equations).sum := by
    rw [hy, num_constraint_equations_pairs]
  have hproj := hproj_of_wf p d hwf
  have hnc := num_constraints_eq_pairs_length (makeBundle p d)
  refine ⟨(projGradImpl (makeBundle p d).pairs y).1,
    (projGradImpl (makeBundle p d).pairs y).2, ?_, ?_, ?_, ?_, ?_, ?_⟩
  · unfold SapConstraintBundle.ProjectImpulsesWithGrad
    rw [if_pos hy]
  · unfold SapConstraintBundle.ProjectImpulses
    rw [if_pos hy, ← projGradImpl_fst]
  · rw [projGradImpl_fst, projImpl_length _ _ hproj hpl,
      ← num_constraint_equations_pairs]
  · rw [projGradImpl_snd_length, hnc]
  · intro i hi
    rw [hnc] at hi
    obtain ⟨h1, h2⟩ := projGradImpl_spec _ _ hproj hpl i hi
    refine ⟨h1, h2, ?_⟩
    rw [h2]
    have hoff := rowOffset_add_le (makeBundle p d).pairs i hi
    have hseg : (seg y (rowOffset (makeBundle p d).pairs i)
        ((makeBundle p d).pairs.getD i default).1.num_equations).length =
        ((makeBundle p d).pairs.getD i default).1.num_equations := by
      rw [seg_length]
      omega
    exact (hwf.grad_size _ (pairs_getD_mem p d i hi) _ hseg).1
  · intro y' hy' i hi hseg gamma' hg'
    rw [hnc] at hi
    unfold SapConstraintBundle.ProjectImpulses at hg'
    rw [if_pos hy'] at hg'
    have hg'' : gamma' = projImpl (makeBundle p d).pairs y' :=
      (Option.some.inj hg').symm
    have hpl' : y'.length =
        ((makeBundle p d).pairs.map fun cd => cd.1.num_equations).sum := by
      rw [hy', num_constraint_equations_pairs]
    have h1' := (projGradImpl_spec _ _ hproj hpl' i hi).1
    have h1 := (projGradImpl_spec _ _ hproj hpl i hi).1
    rw [projGradImpl_fst] at h1' h1
    rw [hg'', h1', hseg, projGradImpl_fst, h1]

theorem C7_project_impulses_segments_witness :
    WellFormed exProblem ∧
    List.length [(1 : ℚ), 2, 3, 4] =
      (makeBundle exProblem exDelassus).num_constraint_equations ∧
    ∃ gamma dPdy,
      (makeBundle exProblem exDelassus).ProjectImpulsesWithGrad
          [1, 2, 3, 4] = some (gamma, dPdy) ∧
      gamma.length =
        (makeBundle exProblem exDelassus).num_constraint_equations :=
  ⟨exProblem_wf, by decide, by
    obtain ⟨gamma, dPdy, h1, _, h3, _⟩ :=
      C7_project_impulses_segments exProblem exDelassus exProblem_wf
        [1, 2, 3, 4] (by decide)
    exact ⟨gamma, dPdy, h1, h3⟩⟩

/-- C8: `ProjectImpulsesAndCalcConstraintsHessian` performs the same
projection traversal as `ProjectImpulses` and sets, for each constraint
`i`, `G[i] = (dPᵢ/dyᵢ) ⋅ Rᵢ⁻¹` with `Rᵢ⁻¹` the elementwise reciprocal of
the constraint's regularization sub-segment; `G` holds exactly
`num_constraints()` blocks. -/
theorem C8_hessian_blocks (p : SapContactProblem) (d : List ℚ)
    (y : List ℚ)
    (hy : y.length = (makeBundle p d).num_constraint_equations) :
    ∃ gamma G,
      (makeBundle p d).ProjectImpulsesAndCalcConstraintsHessian y =
        some (gamma, G) ∧
      (makeBundle p d).ProjectImpulses y = some gamma ∧
      G.length = (makeBundle p d).num_constraints ∧
      ∀ i, i < (makeBundle p d).num_constraints →
        G.getD i [] =
          matMulDiag
            (((makeBundle p d).pairs.getD i default).1.projectGrad
              (seg y (rowOffset (makeBundle p d).pairs i)
                ((makeBundle p d).pairs.getD i default).1.num_equations))
            (seg (makeBundle p d).Rinv
              (rowOffset (makeBundle p d).pairs i)
              ((makeBundle p d).pairs.getD i default).1.num_equations) ∧
        seg (makeBundle p d).Rinv (rowOffset (makeBundle p d).pairs i)
            ((makeBundle p d).pairs.getD i default).1.num_equations =
          (seg (makeBundle p d).R (rowOffset (makeBundle p d).pairs i)
            ((makeBundle p d).pairs.getD i default).1.num_equations).map
            fun r => 1 / r := by
  have hnc := num_constraints_eq_pairs_length (makeBundle p d)
  refine ⟨(projHessImpl (makeBundle p d).pairs y (makeBundle p d).Rinv).1,
    (projHessImpl (makeBundle p d).pairs y (makeBundle p d).Rinv).2,
    ?_, ?_, ?_, ?_⟩
  · unfold SapConstraintBundle.ProjectImpulsesAndCalcConstraintsHessian
    rw [if_pos hy]
  · unfold SapConstraintBundle.ProjectImpulses
    rw [if_pos hy, ← projHessImpl_fst]
  · rw [projHessImpl_snd_length, hnc]
  · intro i hi
    rw [hnc] at hi
    refine ⟨projHessImpl_spec _ _ _ i hi, ?_⟩
    rw [Rinv_eq_map, seg_map]

theorem C8_hessian_blocks_witness :
    List.length [(1 : ℚ), 2, 3, 4] =
      (makeBundle exProblem exDelassus).num_constraint_equations ∧
    ∃ gamma G,
      (makeBundle exProblem exDelassus).ProjectImpulsesAndCalcConstraintsHessian
          [1, 2, 3, 4] = some (gamma, G) ∧
      G.length = (makeBundle exProblem exDelassus).num_constraints :=
  ⟨by decide, by
    obtain ⟨gamma, G, h1, _, h3, _⟩ :=
      C8_hessian_blocks exProblem exDelassus [1, 2, 3, 4] (by decide)
    exact ⟨gamma, G, h1, h3⟩⟩

/-! ### Helpers for the ordering claim -/

theorem filter_flatMap_eq_nil {α κ : Type} [DecidableEq κ] (f : α → κ)
    (l : List α) (ks : List κ) (k : κ) (hk : k ∉ ks) :
    ((ks.flatMap fun k' => l.filter fun a => f a = k').filter
      fun a => f a = k) = [] := by
  rw [List.filter_eq_nil_iff]
  intro a ha
  obtain ⟨k', hk', hak'⟩ := List.mem_flatMap.mp ha
  have hfa : f a = k' := by simpa using (List.mem_filter.mp hak').2
  simp only [hfa, decide_eq_true_eq]
  intro h
  exact hk (h ▸ hk')

theorem filter_flatMap_collapse {α κ : Type} [DecidableEq κ] (f : α → κ)
    (l : List α) :
    ∀ (ks : List κ), ks.Nodup → ∀ k ∈ ks,
      ((ks.flatMap fun k' => l.filter fun a => f a = k').filter
        fun a => f a = k) = l.filter fun a => f a = k := by
  intro ks
  induction ks with
  | nil => intro _ k hk; simp at hk
  | cons k' ks ih =>
    intro hn k hk
    rw [List.flatMap_cons, List.filter_append]
    rcases List.mem_cons.mp hk with rfl | hkks
    · have h2 := filter_flatMap_eq_nil f l ks k (List.nodup_cons.mp hn).1
      rw [h2, List.append_nil, List.filter_filter]
      refine List.filter_congr ?_
      intro a _
      by_cases h : f a = k <;> simp [h]
    · have hne : k ≠ k' := by
        intro h
        exact (List.nodup_cons.mp hn).1 (h ▸ hkks)
      have h1 : ((l.filter fun a => f a = k').filter
          fun a => f a = k) = [] := by
        rw [List.filter_eq_nil_iff]
        intro a ha
        have hfa : f a = k' := by simpa using (List.mem_filter.mp ha).2
        simp only [hfa, decide_eq_true_eq]
        exact fun h => hne h.symm
      rw [h1, List.nil_append]
      exact ih (List.nodup_cons.mp hn).2 k hkks

theorem map_filter_replicate {α κ : Type} [DecidableEq κ] (f : α → κ)
    (k : κ) :
    ∀ (l : List α), (l.filter fun a => f a = k).map f =
      List.replicate (l.countP fun a => f a = k) k := by
  intro l
  induction l with
  | nil => simp
  | cons a l ih =>
    by_cases h : f a = k
    · simp [List.filter_cons, List.countP_cons, h, ih, List.replicate_succ]
    · simp [List.filter_cons, List.countP_cons, h, ih]

/-- Per-constraint segments of a concatenation built over the graph-ordered
pairs: constraint `i`'s segment is exactly its own contribution. -/
theorem flatMap_seg (g : SapConstraint × ℚ → List ℚ) :
    ∀ (pairs : List (SapConstraint × ℚ)),
      (∀ cd ∈ pairs, (g cd).length = cd.1.num_equations) →
      ∀ i, i < pairs.length →
        seg (pairs.flatMap g) (rowOffset pairs i)
            (pairs.getD i default).1.num_equations =
          g (pairs.getD i default) := by
  intro pairs
  induction pairs with
  | nil => intro _ i hi; simp at hi
  | cons cd rest ih =>
    intro hg i hi
    have hglen := hg cd (List.mem_cons_self _ _)
    cases i with
    | zero =>
      simp only [rowOffset_zero, List.getD_cons_zero, List.flatMap_cons,
        seg_zero]
      rw [List.take_left' hglen]
    | succ i =>
      rw [rowOffset_succ_cons, List.flatMap_cons]
      simp only [List.getD_cons_succ]
      rw [seg_append_right hglen]
      exact ih (fun cd h => hg cd (List.mem_cons_of_mem _ h)) i
        (by simpa using hi)

theorem zip_keys_eq_clusterKeys (p : SapContactProblem) (d : List ℚ)
    (hd : d.length = p.num_constraints) :
    dedupFirst ((p.constraints.zip d).map fun cd => constraintKey cd.1) =
      clusterKeys p := by
  unfold clusterKeys
  have h : (p.constraints.zip d).map (fun cd => constraintKey cd.1) =
      ((p.constraints.zip d).map Prod.fst).map constraintKey := by
    rw [List.map_map]
    rfl
  rw [h, List.map_fst_zip _ _ (Nat.le_of_eq hd.symm)]

theorem filter_zip_map_num_eq (p : SapContactProblem) (d : List ℚ)
    (hd : d.length = p.num_constraints) (k : Nat × Nat) :
    (((p.constraints.zip d).filter fun cd => constraintKey cd.1 = k).map
        fun cd => cd.1.num_equations) =
      (p.constraints.filter fun c => constraintKey c = k).map
        SapConstraint.num_equations := by
  conv_rhs =>
    rw [← List.map_fst_zip p.constraints d (Nat.le_of_eq hd.symm)]
  rw [List.filter_map, List.map_map]
  rfl

/-- C5: the bundle's internal constraint order is the graph order — within
each cluster the constraints keep their problem order, clusters are
contiguous in their deterministic creation order, the Jacobian's block rows
follow the cluster order, and `R`/`vhat` are laid out by the same bundle
order — and this order generally differs from the problem's original
constraint order (it does on the example problem). -/
theorem C5_graph_order (p : SapContactProblem) (d : List ℚ)
    (hwf : WellFormed p) (hd : d.length = p.num_constraints) :
    (∀ k : Nat × Nat,
      ((makeBundle p d).pairs.filter fun cd => constraintKey cd.1 = k) =
        (p.constraints.zip d).filter fun cd => constraintKey cd.1 = k) ∧
    ((makeBundle p d).pairs.map fun cd => constraintKey cd.1) =
      (clusterKeys p).flatMap (fun k => List.replicate
        ((p.constraints.zip d).countP fun cd => constraintKey cd.1 = k)
        k) ∧
    (makeBundle p d).J.row_sizes =
      (clusterKeys p).map (fun k =>
        ((p.constraints.filter fun c => constraintKey c = k).map
          SapConstraint.num_equations).sum) ∧
    (∀ i, i < (makeBundle p d).pairs.length →
      seg (makeBundle p d).R (rowOffset (makeBundle p d).pairs i)
          ((makeBundle p d).pairs.getD i default).1.num_equations =
        (((makeBundle p d).pairs.getD i default).1.calcReg
          ((makeBundle p d).pairs.getD i default).2).1 ∧
      seg (makeBundle p d).vhat (rowOffset (makeBundle p d).pairs i)
          ((makeBundle p d).pairs.getD i default).1.num_equations =
        (((makeBundle p d).pairs.getD i default).1.calcReg
          ((makeBundle p d).pairs.getD i default).2).2) ∧
    ((makeBundle exProblem exDelassus).constraints.map
        SapConstraint.num_equations ≠
      exProblem.constraints.map SapConstraint.num_equations) := by
  refine ⟨?_, ?_, ?_, ?_, ?_⟩
  · intro k
    show ((dedupFirst ((p.constraints.zip d).map fun cd =>
        constraintKey cd.1)).flatMap fun k' =>
          (p.constraints.zip d).filter fun cd =>
            constraintKey cd.1 = k').filter
        (fun cd => constraintKey cd.1 = k) = _
    by_cases hk : k ∈ dedupFirst ((p.constraints.zip d).map fun cd =>
        constraintKey cd.1)
    · exact filter_flatMap_collapse _ _ _ (nodup_dedupFirst _) k hk
    · rw [filter_flatMap_eq_nil _ _ _ _ hk]
      symm
      rw [List.filter_eq_nil_iff]
      intro cd hcd
      simp only [decide_eq_true_eq]
      intro h
      exact hk (mem_dedupFirst.mpr (h ▸ List.mem_map_of_mem _ hcd))
  · show ((dedupFirst ((p.constraints.zip d).map fun cd =>
        constraintKey cd.1)).flatMap fun k =>
          (p.constraints.zip d).filter fun cd =>
            constraintKey cd.1 = k).map (fun cd => constraintKey cd.1) = _
    rw [List.map_flatMap, zip_keys_eq_clusterKeys p d hd]
    congr 1
    funext k
    exact map_filter_replicate _ k _
  · show (dedupFirst ((p.constraints.zip d).map fun cd =>
        constraintKey cd.1)).map (fun k =>
          (((p.constraints.zip d).filter fun cd =>
            constraintKey cd.1 = k).map
              fun cd => cd.1.num_equations).sum) = _
    rw [zip_keys_eq_clusterKeys p d hd]
    refine List.map_congr_left ?_
    intro k _
    rw [filter_zip_map_num_eq p d hd k]
  · intro i hi
    constructor
    · exact flatMap_seg (fun cd => (cd.1.calcReg cd.2).1) _
        (fun cd hcd => (hwf.reg_sizes cd.1 (mem_orderedPairs hcd) cd.2).1)
        i hi
    · exact flatMap_seg (fun cd => (cd.1.calcReg cd.2).2) _
        (fun cd hcd => (hwf.reg_sizes cd.1 (mem_orderedPairs hcd) cd.2).2)
        i hi
  · decide

theorem C5_graph_order_witness :
    WellFormed exProblem ∧
    exDelassus.length = exProblem.num_constraints ∧
    ((makeBundle exProblem exDelassus).pairs.filter fun cd =>
        constraintKey cd.1 = (0, 1)) =
      (exProblem.constraints.zip exDelassus).filter fun cd =>
        constraintKey cd.1 = (0, 1) :=
  ⟨exProblem_wf, by decide,
    (C5_graph_order exProblem exDelassus exProblem_wf (by decide)).1
      (0, 1)⟩

/-! ### Reordering the problem's constraints -/

/-- The problem with its constraint list re-indexed by `σ`. -/
def permuteProblem (p : SapContactProblem) (σ : List Nat) :
    SapContactProblem :=
  { clique_sizes := p.clique_sizes,
    constraints := σ.map fun i => p.constraints.getD i default }

/-- The Delassus diagonal re-indexed consistently with the constraints. -/
def permuteDelassus (d : List ℚ) (σ : List Nat) : List ℚ :=
  σ.map fun i => d.getD i 0

theorem map_getD_range (l : List SapConstraint) (n : Nat)
    (h : n = l.length) :
    (List.range n).map (fun i => l.getD i default) = l := by
  subst h
  apply List.ext_getElem
  · simp
  · intro n h1 h2
    simp [List.getD_eq_getElem?_getD, List.getElem?_eq_getElem h2]

theorem permuted_constraints_perm (p : SapContactProblem) (σ : List Nat)
    (hσ : σ.Perm (List.range p.num_constraints)) :
    (permuteProblem p σ).constraints.Perm p.constraints := by
  have h2 := hσ.map (fun i => p.constraints.getD i default)
  rw [map_getD_range p.constraints p.num_constraints rfl] at h2
  exact h2

theorem wf_permute (p : SapContactProblem) (σ : List Nat)
    (hσ : σ.Perm (List.range p.num_constraints)) (hwf : WellFormed p) :
    WellFormed (permuteProblem p σ) := by
  have hmem : ∀ c ∈ (permuteProblem p σ).constraints, c ∈ p.constraints :=
    fun c hc => ((permuted_constraints_perm p σ hσ).mem_iff).mp hc
  constructor
  · intro c hc x
    exact hwf.reg_sizes c (hmem c hc) x
  · intro c hc
    exact hwf.proj_size c (hmem c hc)
  · intro c hc
    exact hwf.grad_size c (hmem c hc)
  · exact hwf.clique_pos
  · intro c hc
    exact hwf.cliques_lt c (hmem c hc)

theorem permuted_zip_perm (p : SapContactProblem) (d : List ℚ)
    (σ : List Nat) (hd : d.length = p.num_constraints)
    (hσ : σ.Perm (List.range p.num_constraints)) :
    ((permuteProblem p σ).constraints.zip
      (permuteDelassus d σ)).Perm (p.constraints.zip d) := by
  have hz : ((permuteProblem p σ).constraints.zip (permuteDelassus d σ)) =
      σ.map (fun i => (p.constraints.getD i default, d.getD i 0)) :=
    List.zip_map' _ _ _
  have h4 := hσ.map (fun i => (p.constraints.getD i default, d.getD i 0))
  have h5 : (List.range p.num_constraints).map
      (fun i => (p.constraints.getD i default, d.getD i 0)) =
      p.constraints.zip d := by
    apply List.ext_getElem
    · simp [List.length_zip, hd, SapContactProblem.num_constraints]
    · intro n h1 h2
      have hn : n < p.constraints.length := by
        simpa [SapContactProblem.num_constraints] using
          lt_of_lt_of_le (by simpa using h1) (le_refl _)
      have hnd : n < d.length := by
        rw [hd]
        simpa [SapContactProblem.num_constraints] using hn
      simp [List.getElem_zip, List.getD_eq_getElem?_getD,
        List.getElem?_eq_getElem hn, List.getElem?_eq_getElem hnd]
  rw [hz]
  rw [h5] at h4
  exact h4

/-- C9: reordering the problem's constraint list (with the Delassus
diagonal permuted consistently) leaves `num_constraint_equations()` and the
Jacobian's participating-column count unchanged, and every constraint of
the permuted bundle has a counterpart position in the original bundle with
the same constraint and the same per-constraint projection behaviour on
matching segment inputs; only the internal row layout may differ. -/
theorem C9_reordering_invariance (p : SapContactProblem) (d : List ℚ)
    (σ : List Nat) (hwf : WellFormed p)
    (hd : d.length = p.num_constraints)
    (hσ : σ.Perm (List.range p.num_constraints)) :
    (makeBundle (permuteProblem p σ)
        (permuteDelassus d σ)).num_constraint_equations =
      (makeBundle p d).num_constraint_equations ∧
    (makeBundle (permuteProblem p σ) (permuteDelassus d σ)).J.cols =
      (makeBundle p d).J.cols ∧
    (∀ j', j' < (makeBundle (permuteProblem p σ)
        (permuteDelassus d σ)).pairs.length →
      ∃ j, j < (makeBundle p d).pairs.length ∧
        (makeBundle (permuteProblem p σ)
            (permuteDelassus d σ)).pairs.getD j' default =
          (makeBundle p d).pairs.getD j default ∧
        ∀ (y y' : List ℚ),
          y.length = (makeBundle p d).num_constraint_equations →
          y'.length = (makeBundle (permuteProblem p σ)
            (permuteDelassus d σ)).num_constraint_equations →
          seg y' (rowOffset (makeBundle (permuteProblem p σ)
              (permuteDelassus d σ)).pairs j')
              ((makeBundle (permuteProblem p σ)
                (permuteDelassus d σ)).pairs.getD j'
                  default).1.num_equations =
            seg y (rowOffset (makeBundle p d).pairs j)
              ((makeBundle p d).pairs.getD j default).1.num_equations →
          seg (projImpl (makeBundle (permuteProblem p σ)
              (permuteDelassus d σ)).pairs y')
              (rowOffset (makeBundle (permuteProblem p σ)
                (permuteDelassus d σ)).pairs j')
              ((makeBundle (permuteProblem p σ)
                (permuteDelassus d σ)).pairs.getD j'
                  default).1.num_equations =
            seg (projImpl (makeBundle p d).pairs y)
              (rowOffset (makeBundle p d).pairs j)
              ((makeBundle p d).pairs.getD j default).1.num_equations) := by
  have hd' : (permuteDelassus d σ).length =
      (permuteProblem p σ).num_constraints := by
    simp [permuteDelassus, permuteProblem, SapContactProblem.num_constraints]
  have hcperm := permuted_constraints_perm p σ hσ
  have hwf' := wf_permute p σ hσ hwf
  refine ⟨?_, ?_, ?_⟩
  · have e1 := ((bundle_constraints_perm (permuteProblem p σ)
      (permuteDelassus d σ) hd').map SapConstraint.num_equations).sum_eq
    have e2 := ((bundle_constraints_perm p d hd).map
      SapConstraint.num_equations).sum_eq
    have e3 := (hcperm.map SapConstraint.num_equations).sum_eq
    show ((makeBundle (permuteProblem p σ)
        (permuteDelassus d σ)).constraints.map
          SapConstraint.num_equations).sum =
      ((makeBundle p d).constraints.map SapConstraint.num_equations).sum
    rw [e1, e2, e3]
  · have hpart : (participatingCliques (permuteProblem p σ)).Perm
        (participatingCliques p) := by
      have hnd1 : (participatingCliques (permuteProblem p σ)).Nodup :=
        nodup_dedupFirst _
      have hnd2 : (participatingCliques p).Nodup := nodup_dedupFirst _
      refine (List.perm_ext_iff_of_nodup hnd1 hnd2).mpr ?_
      intro q
      rw [mem_participatingCliques, mem_participatingCliques]
      constructor
      · rintro ⟨c, hc, h⟩
        exact ⟨c, hcperm.mem_iff.mp hc, h⟩
      · rintro ⟨c, hc, h⟩
        exact ⟨c, hcperm.mem_iff.mpr hc, h⟩
    show ((participatingCliques (permuteProblem p σ)).map
        fun q => (permuteProblem p σ).clique_sizes.getD q 0).sum =
      ((participatingCliques p).map fun q =>
        p.clique_sizes.getD q 0).sum
    exact (hpart.map fun q => p.clique_sizes.getD q 0).sum_eq
  · intro j' hj'
    have hpp : (makeBundle (permuteProblem p σ)
        (permuteDelassus d σ)).pairs.Perm (makeBundle p d).pairs :=
      (orderedPairs_perm _ _).trans
        ((permuted_zip_perm p d σ hd hσ).trans (orderedPairs_perm p d).symm)
    have hmem' : (makeBundle (permuteProblem p σ)
        (permuteDelassus d σ)).pairs.getD j' default ∈
        (makeBundle p d).pairs := by
      refine hpp.mem_iff.mp ?_
      rw [List.getD_eq_getElem _ _ hj']
      exact List.getElem_mem hj'
    obtain ⟨j, hj, hgetj⟩ := List.mem_iff_getElem.mp hmem'
    refine ⟨j, hj, ?_, ?_⟩
    · rw [List.getD_eq_getElem _ _ hj, hgetj]
    · intro y y' hy hy' hseg
      have heq : (makeBundle (permuteProblem p σ)
          (permuteDelassus d σ)).pairs.getD j' default =
          (makeBundle p d).pairs.getD j default := by
        rw [List.getD_eq_getElem _ _ hj, hgetj]
      have hpl : y.length =
          ((makeBundle p d).pairs.map fun cd => cd.1.num_equations).sum := by
        rw [hy, num_constraint_equations_pairs]
      have hpl' : y'.length =
          ((makeBundle (permuteProblem p σ) (permuteDelassus d σ)).pairs.map
            fun cd => cd.1.num_equations).sum := by
        rw [hy', num_constraint_equations_pairs]
      have h1 := (projGradImpl_spec _ _ (hproj_of_wf p d hwf) hpl j hj).1
      have h1' := (projGradImpl_spec _ _
        (hproj_of_wf (permuteProblem p σ) (permuteDelassus d σ) hwf')
        hpl' j' hj').1
      rw [projGradImpl_fst] at h1 h1'
      rw [h1, h1', hseg, heq]

theorem C9_reordering_invariance_witness :
    WellFormed exProblem ∧
    exDelassus.length = exProblem.num_constraints ∧
    ([2, 0, 1] : List Nat).Perm (List.range exProblem.num_constraints) ∧
    (makeBundle (permuteProblem exProblem [2, 0, 1])
        (permuteDelassus exDelassus [2, 0, 1])).num_constraint_equations =
      (makeBundle exProblem exDelassus).num_constraint_equations :=
  ⟨exProblem_wf, by decide, by decide,
    (C9_reordering_invariance exProblem exDelassus [2, 0, 1] exProblem_wf
      (by decide) (by decide)).1⟩

end SapBundle
